import Mathlib

/-!
Verification of the `RawData` interface of `timeseries-server`
(`src/lib/interfaces/RawData.js`), a sliding-window ingestion buffer with
fragment-rotation storage, a time-indexed fragment locator, and
cache-control logic for live and historical HTTP reads.

The embedding below models the state of a `RawData` instance and the three
algorithmic paths of the source:

* `init` (lines 57-85): push an incoming record into the `_latest` window,
  evict when the window exceeds `latestWindowsize`, rebuild `_latestTrig`;
* `storeData` (lines 170-180): append-to-fragment with byte-counter
  rotation;
* the two HTTP handlers of `setupPollInterfaces` (lines 87-168): the
  `/latest` conditional read and the `/fragments?time=` historical read.

External collaborators (the `Utils` formatter, the timestamp extractor,
`md5`, the file system) are modelled as function parameters or as explicit
pieces of state; timestamps are modelled as natural numbers (milliseconds,
as produced by JavaScript `Date.getTime()`).
-/

namespace TimeseriesServer

/-- One entry of the `_latest` window, as pushed by `init` (lines 62-67):
the raw payload string `data`, its TriG serialization `triplesTrig`
(produced by the external formatter), and the generated-at time `gat`.
The intermediate `triples` field of the source is consumed only to
produce `triplesTrig` and is not read anywhere else, so it is not
carried separately here. -/
structure WindowEntry where
  data : String
  triplesTrig : String
  gat : Nat
  deriving Repr, DecidableEq

/-- JavaScript `Buffer.from(s).byteLength`: the UTF-8 byte length of a
string (line 178). -/
def byteLength (s : String) : Nat := s.utf8ByteSize

/-- The state touched by `storeData` (lines 170-180): `_byteCounter`,
the currently open fragment `lastFragment` (the timestamp naming it;
`none` before the first rotation, when `this.lastFragment` is still
undefined), the log of file appends `files` (fragment name, appended
payload), and — as a ghost observation for the eviction claims — the
list `calls` of `(payload, timestamp)` argument pairs that `storeData`
has been handed. -/
structure StoreState where
  byteCounter : Nat
  lastFragment : Option Nat
  files : List (Option Nat × String)
  calls : List (String × Nat)
  deriving Repr, DecidableEq

/-- The store state of a freshly constructed `RawData` instance
(constructor line 18: `_byteCounter = 0`, no fragment open). -/
def initialStoreState : StoreState :=
  { byteCounter := 0, lastFragment := none, files := [], calls := [] }

/-- `storeData(_data, _gat)` (lines 170-180): when the byte counter is 0
or exceeds `maxFileSize`, open a new fragment named by the timestamp and
reset the counter; then append the payload to the open fragment and add
its byte length to the counter. The returned Boolean reports whether the
rotation branch (lines 171-175) ran, i.e. whether a new fragment file was
started by this call. -/
def storeData (maxFileSize : Nat) (s : StoreState) (payload : String)
    (gat : Nat) : StoreState × Bool :=
  let rotate : Bool := decide (s.byteCounter = 0 ∨ s.byteCounter > maxFileSize)
  let s1 := if s.byteCounter = 0 ∨ s.byteCounter > maxFileSize then
    { s with lastFragment := some gat, byteCounter := 0 }
  else s
  ({ s1 with
      files := s1.files ++ [(s1.lastFragment, payload)],
      byteCounter := s1.byteCounter + byteLength payload,
      calls := s1.calls ++ [(payload, gat)] }, rotate)

/-- The state touched by `init` (lines 57-85): the `_latest` window, the
materialized `_latestTrig` view, and the fragment-store state. -/
structure RState where
  latest : List WindowEntry
  latestTrig : String
  store : StoreState
  deriving Repr, DecidableEq

/-- The ingestion-relevant state of a freshly constructed instance
(constructor lines 18-21). -/
def initialRState : RState :=
  { latest := [], latestTrig := "", store := initialStoreState }

/-- One call of `init(data)` (lines 57-85), parametrized by the external
collaborators `gatOf` (`Utils.getGeneratedAtTimeValue`) and `trigOf`
(`Utils.getTriplesFromString` composed with `Utils.formatTriples`):

1. push a new window entry at the tail of `_latest`;
2. if the window length now exceeds `latestWindowsize`, remove an entry
   with `Array.prototype.pop()` — which removes and returns the LAST
   element, i.e. the entry just pushed — and hand it to `storeData`;
3. rebuild `_latestTrig` by concatenating `'\n' + triplesTrig` over the
   remaining window (lines 80-84).

The websocket push (lines 70-72) is a fire-and-forget side effect with no
effect on this state and is not modelled. -/
def initStep (latestWindowsize maxFileSize : Nat)
    (gatOf : String → Nat) (trigOf : String → String)
    (s : RState) (d : String) : RState :=
  let entry : WindowEntry := { data := d, triplesTrig := trigOf d, gat := gatOf d }
  let latest1 := s.latest ++ [entry]
  let popped :=
    if latest1.length > latestWindowsize then
      match latest1.getLast? with
      | some o => (latest1.dropLast, (storeData maxFileSize s.store o.data o.gat).1)
      | none => (latest1, s.store)
    else (latest1, s.store)
  { latest := popped.1,
    latestTrig := String.join (popped.1.map (fun e => "\n" ++ e.triplesTrig)),
    store := popped.2 }

/-- Processing an ordered sequence of records one at a time, as `onData`
does for an array input (lines 46-55). -/
def runInit (latestWindowsize maxFileSize : Nat)
    (gatOf : String → Nat) (trigOf : String → String)
    (s : RState) (ds : List String) : RState :=
  ds.foldl (initStep latestWindowsize maxFileSize gatOf trigOf) s

/-- All states reached during an ingestion run, starting from `s`:
the state before the first record and the state after each record. -/
def runStates (latestWindowsize maxFileSize : Nat)
    (gatOf : String → Nat) (trigOf : String → String)
    (s : RState) (ds : List String) : List RState :=
  ds.scanl (initStep latestWindowsize maxFileSize gatOf trigOf) s

/-- The window entry that `init` builds for a record (lines 62-67). -/
def mkEntry (gatOf : String → Nat) (trigOf : String → String)
    (d : String) : WindowEntry :=
  { data := d, triplesTrig := trigOf d, gat := gatOf d }

/-- A concrete full window of size 2, used to witness C10. -/
def frozenWitnessState : RState :=
  { latest := [⟨"a", "a", 1⟩, ⟨"b", "b", 1⟩], latestTrig := "",
    store := initialStoreState }

/-- Modelled from the spec: `Utils.dateBinarySearch` lives in
`lib/Utils.js`, which is not part of the provided sources; §4.3 of the
spec describes it as a binary search over the ascending fragment
timestamp sequence. This is the search loop: on the inclusive range
`[lo, hi]` it returns the largest index whose timestamp is `≤ t`,
or `lo` when every timestamp in the range is greater than `t`. -/
def bsearchAux (bs : List Nat) (t : Nat) (lo hi : Nat) : Nat :=
  if h : lo < hi then
    if bs.getD ((lo + hi + 1) / 2) 0 ≤ t then
      bsearchAux bs t ((lo + hi + 1) / 2) hi
    else
      bsearchAux bs t lo ((lo + hi + 1) / 2 - 1)
  else lo
termination_by hi - lo
decreasing_by
  · omega
  · omega

/-- Modelled from the spec: `Utils.dateBinarySearch(queryTime, fragments)`
(not under `src/`; spec §4.3) returns the pair of the located fragment
timestamp and its zero-based index in the ascending fragment list —
"the fragment whose timestamp is the greatest value ≤ queryTime", or the
earliest fragment (index 0) when the query time precedes every
fragment. -/
def dateBinarySearch (t : Nat) (bs : List Nat) : Nat × Nat :=
  (bs.getD (bsearchAux bs t 0 (bs.length - 1)) 0,
   bsearchAux bs t 0 (bs.length - 1))

/-- Outcome of the `/fragments?time=` handler (lines 127-167), as far as
control flow, redirect target, located index and cache policy are
concerned: a 302 redirect carrying the target time, or a 200 response
carrying the fragment time, its index, and whether `Cache-Control` marks
it permanently cacheable (`true`: immutable/long max-age, line 162;
`false`: no-cache/no-store/must-revalidate, line 165). -/
inductive FragResponse where
  | redirect (time : Nat)
  | ok (time : Nat) (index : Nat) (cacheImmutable : Bool)
  deriving Repr, DecidableEq

/-- The historical-read handler (lines 127-167). `queryTime` is the
parsed `?time=` parameter: `none` when `new Date(ctx.query.time)` is an
Invalid Date (missing or malformed), `some t` otherwise; `now` is the
current time (`new Date()` of line 134); `fragments` is the ascending
list of fragment timestamps parsed from the directory listing
(line 138), whose length is also `Utils.getFragmentsCount` (line 148).
An invalid time redirects to `now` before any fragment lookup; a valid
time is located with `dateBinarySearch`, redirecting whenever it is not
exactly the located fragment's timestamp; otherwise the response serves
that fragment with the immutable cache policy iff its index is not the
last one. The response body (preamble + fragment content + metadata,
lines 150-154) is externally loaded content not modelled here. -/
def fragmentsHandler (queryTime : Option Nat) (now : Nat)
    (fragments : List Nat) : FragResponse :=
  match queryTime with
  | none => .redirect now
  | some t =>
    let fi := dateBinarySearch t fragments
    if t ≠ fi.1 then .redirect fi.1
    else .ok fi.1 fi.2 (decide (fi.2 < fragments.length - 1))

/-- An RDF quad as built by `createMetadata` (lines 182-265): subject,
predicate, object, graph. Named nodes and literals are both modelled as
their lexical string values. -/
structure Quad where
  s : String
  p : String
  o : String
  g : String
  deriving Repr, DecidableEq

/-- The configuration fields of a `RawData` instance that the metadata
and live-read paths consume (constructor lines 12-25). -/
structure Config where
  serverUrl : String
  name : String
  license : String
  deriving Repr, DecidableEq

/-- `this._baseUri` (line 14): `serverUrl + name + '/fragments'`. -/
def cfgBaseUri (cfg : Config) : String :=
  cfg.serverUrl ++ cfg.name ++ "/fragments"

/-- JavaScript `s.substring(0, s.indexOf('.trig'))` (line 254): the part
of the string before the first occurrence of `.trig`; when `.trig` does
not occur, `indexOf` is -1 and `substring(0, -1)` is the empty
string. -/
def stripTrig (s : String) : String :=
  match s.splitOn ".trig" with
  | [] => ""
  | [_] => ""
  | x :: _ :: _ => x

/-- The `hydra:previous` predicate IRI (line 258). -/
def hydraPrevious : String := "http://www.w3.org/ns/hydra/core#previous"

/-- `createMetadata(subject, index)` (lines 182-265): the Hydra search
template (eight fixed quads), an optional license quad, and — exactly
when `index > 0` — a `hydra:previous` quad pointing at the fragment at
`index - 1` of the directory listing `fragments`, with its `.trig`
extension stripped. `Utils.formatTriples` serializes this quad list;
serialization is external and not modelled. -/
def createMetadata (cfg : Config) (fragments : List String)
    (subject : String) (index : Nat) : List Quad :=
  let quads : List Quad := [
    { s := subject, p := "http://www.w3.org/ns/hydra/core#search",
      o := subject ++ "#search", g := "#Metadata" },
    { s := subject ++ "#search",
      p := "http://www.w3.org/1999/02/22-rdf-syntax-ns#type",
      o := "http://www.w3.org/ns/hydra/core#IriTemplate", g := "#Metadata" },
    { s := subject ++ "#search",
      p := "http://www.w3.org/ns/hydra/core#template",
      o := cfgBaseUri cfg ++ "\x7b?time\x7d", g := "#Metadata" },
    { s := subject ++ "#search",
      p := "http://www.w3.org/ns/hydra/core#variableRepresentation",
      o := "http://www.w3.org/ns/hydra/core#BasicRepresentation",
      g := "#Metadata" },
    { s := subject ++ "#search",
      p := "http://www.w3.org/ns/hydra/core#mapping",
      o := subject ++ "#mapping", g := "#Metadata" },
    { s := subject ++ "#mapping",
      p := "http://www.w3.org/1999/02/22-rdf-syntax-ns#type",
      o := "http://www.w3.org/ns/hydra/core#IriTemplateMapping",
      g := "#Metadata" },
    { s := subject ++ "#mapping",
      p := "http://www.w3.org/ns/hydra/core#variable",
      o := "time", g := "#Metadata" },
    { s := subject ++ "#mapping",
      p := "http://www.w3.org/ns/hydra/core#required",
      o := "true", g := "#Metadata" }]
  let quads := if cfg.license ≠ "" then
    quads ++ [{ s := subject, p := "http://creativecommons.org/ns#license",
                o := cfg.license, g := "#Metadata" }]
  else quads
  if index > 0 then
    quads ++ [{ s := subject, p := hydraPrevious,
                o := cfg.serverUrl ++ cfg.name ++ "/fragments?time="
                     ++ stripTrig (fragments.getD (index - 1) ""),
                g := "#Metadata" }]
  else quads

/-- The state read and written by the `/latest` handler (lines 91-124):
the `_latest` window, the materialized `_latestTrig`, the static
preamble `_staticTriples`, the single-slot response cache
(`_prevEtag`, `_prevResponseBody`), and the fragment directory listing
(`Utils.getAllFragments`, line 117), whose length is the index used for
the "latest" pseudo-fragment's metadata. -/
structure LatestState where
  latest : List WindowEntry
  latestTrig : String
  staticTriples : String
  prevEtag : String
  prevResponseBody : String
  fragmentFiles : List String
  deriving Repr, DecidableEq

/-- Outcome of one `/latest` request: 404 when the window is empty, 304
when the client's `If-None-Match` validator matches, `refError` for the
branch of line 105 — `return prevResponse` references an undeclared
variable `prevResponse`, so this branch raises a ReferenceError and the
request fails with neither headers nor body — and otherwise a 200 with
`ETag`, `Last-Modified` (the newest entry's generated-at time) and the
full body. -/
inductive LatestResponse where
  | notFound
  | notModified
  | refError
  | ok (etag : String) (lastModified : Nat) (body : String)
  deriving Repr, DecidableEq

/-- The `/latest` handler (lines 91-124), parametrized by the external
`md5` hash and the external `Utils.formatTriples` serialization `fmt` of
the metadata quads. When the window is nonempty: the validator is the
MD5 of the newest entry's raw payload wrapped as a weak ETag; a
matching `If-None-Match` yields 304; otherwise, when the validator
equals the cached `_prevEtag`, the source executes `return prevResponse`
(line 105) — an undeclared variable, modelled as `refError` — and
otherwise the full body (preamble + windowed content + metadata for the
pseudo-fragment whose index is the fragment count) is rebuilt and
cached together with the validator. -/
def readLatest (md5 : String → String) (fmt : List Quad → String)
    (cfg : Config) (st : LatestState) (ifNoneMatch : Option String) :
    LatestResponse × LatestState :=
  match st.latest.getLast? with
  | none => (.notFound, st)
  | some lastEntry =>
    let etag := "W/\"" ++ md5 lastEntry.data ++ "\""
    if ifNoneMatch = some etag then (.notModified, st)
    else if etag = st.prevEtag then (.refError, st)
    else
      let uri := cfgBaseUri cfg ++ "/latest"
      let index := st.fragmentFiles.length
      let metadata := fmt (createMetadata cfg st.fragmentFiles uri index)
      let body := st.staticTriples ++ "\n" ++ st.latestTrig ++ "\n" ++ metadata
      (.ok etag lastEntry.gat body,
       { st with prevEtag := etag, prevResponseBody := body })

/-- A concrete one-entry live-reader state used to evaluate the cached
second read. -/
def liveState : LatestState :=
  { latest := [{ data := "d", triplesTrig := "dT", gat := 5 }],
    latestTrig := "\ndT", staticTriples := "S", prevEtag := "",
    prevResponseBody := "", fragmentFiles := [] }

/-- A concrete configuration for evaluating the live reader. -/
def liveCfg : Config :=
  { serverUrl := "http://ex/", name := "s", license := "" }

/-- The `calls` ghost log: every `storeData` call appends its
`(payload, timestamp)` argument pair, whether or not it rotates. -/
theorem storeData_calls (maxFileSize : Nat) (s : StoreState) (p : String)
    (g : Nat) :
    ((storeData maxFileSize s p g).1).calls = s.calls ++ [(p, g)] := by
  unfold storeData
  split <;> rfl

/-- Unfolding of one `init` call: when the pushed window exceeds the
configured size, `pop` removes exactly the entry just pushed, so the
window reverts to its previous contents and the new record itself is
handed to `storeData`. -/
theorem initStep_eq (latestWindowsize maxFileSize : Nat)
    (gatOf : String → Nat) (trigOf : String → String)
    (s : RState) (d : String) :
    initStep latestWindowsize maxFileSize gatOf trigOf s d =
      if s.latest.length + 1 > latestWindowsize then
        { latest := s.latest,
          latestTrig := String.join (s.latest.map (fun e => "\n" ++ e.triplesTrig)),
          store := (storeData maxFileSize s.store d (gatOf d)).1 }
      else
        { latest := s.latest ++ [mkEntry gatOf trigOf d],
          latestTrig := String.join ((s.latest ++ [mkEntry gatOf trigOf d]).map
              (fun e => "\n" ++ e.triplesTrig)),
          store := s.store } := by
  unfold initStep mkEntry
  simp only [List.getLast?_concat, List.length_append, List.length_cons,
    List.length_nil, Nat.zero_add, List.dropLast_concat]
  split <;> rfl

/-- One `init` call keeps the window length at most `latestWindowsize`
whenever it was at most `latestWindowsize` before. -/
theorem initStep_length_le (latestWindowsize maxFileSize : Nat)
    (gatOf : String → Nat) (trigOf : String → String)
    (s : RState) (d : String)
    (h : s.latest.length ≤ latestWindowsize) :
    (initStep latestWindowsize maxFileSize gatOf trigOf s d).latest.length ≤
      latestWindowsize := by
  rw [initStep_eq]
  split
  · exact h
  · next hgt =>
    simp only [List.length_append, List.length_cons, List.length_nil, Nat.zero_add]
    omega

/-- Every state reached during an ingestion run from a state within the
bound keeps the window length within the bound. -/
theorem runStates_length_le (latestWindowsize maxFileSize : Nat)
    (gatOf : String → Nat) (trigOf : String → String)
    (ds : List String) (s : RState)
    (h : s.latest.length ≤ latestWindowsize) :
    ∀ st ∈ runStates latestWindowsize maxFileSize gatOf trigOf s ds,
      st.latest.length ≤ latestWindowsize := by
  induction ds generalizing s with
  | nil =>
    intro st hst
    simp only [runStates, List.scanl_nil, List.mem_singleton] at hst
    exact hst ▸ h
  | cons d ds ih =>
    intro st hst
    simp only [runStates, List.scanl_cons, List.singleton_append,
      List.mem_cons] at hst
    rcases hst with rfl | hst
    · exact h
    · exact ih _ (initStep_length_le _ _ _ _ _ _ h) st hst

/-- C2: for all ingestion sequences, immediately after `init` finishes
processing each record the window `_latest` holds at most
`latestWindowsize` entries, and the transient window built during
processing (the window just after the push of line 62, one longer than
the previous window) holds at most `latestWindowsize + 1`. -/
theorem init_window_bound (latestWindowsize maxFileSize : Nat)
    (gatOf : String → Nat) (trigOf : String → String) (ds : List String) :
    ((runStates latestWindowsize maxFileSize gatOf trigOf initialRState ds).all
        (fun st => decide (st.latest.length ≤ latestWindowsize)) = true)
    ∧ ((runStates latestWindowsize maxFileSize gatOf trigOf initialRState ds).all
        (fun st => decide (st.latest.length + 1 ≤ latestWindowsize + 1)) = true) := by
  have hb : ∀ st ∈ runStates latestWindowsize maxFileSize gatOf trigOf
      initialRState ds, st.latest.length ≤ latestWindowsize :=
    runStates_length_le latestWindowsize maxFileSize gatOf trigOf ds
      initialRState (by simp [initialRState])
  constructor
  · rw [List.all_eq_true]
    intro st hst
    exact decide_eq_true_eq.mpr (hb st hst)
  · rw [List.all_eq_true]
    intro st hst
    exact decide_eq_true_eq.mpr (Nat.succ_le_succ (hb st hst))

/-- C1: evaluation of `init` at a failing input. With window size 1,
ingesting `"a"` then `"bb"` hands `storeData` the just-ingested `"bb"`
(the NEWEST entry, removed from the tail by `Array.prototype.pop()` on
line 76), not the oldest entry `"a"` that the FIFO eviction claim — and
the source's own comment on line 74, "store oldest in fragment" —
require. -/
theorem init_pop_failing_input :
    (runInit 1 10 String.length (fun s => s) initialRState ["a", "bb"]).store.calls
        = [("bb", 2)]
    ∧ (runInit 1 10 String.length (fun s => s) initialRState
        ["a", "bb"]).store.calls ≠ [("a", 1)] := by
  constructor
  · rfl
  · decide

/-- C10: once the window `_latest` has length exactly `latestWindowsize`,
every further `init` call leaves the windowed entries unchanged — each
newly ingested record is itself the entry removed by `pop` and handed to
`storeData` — so the entries present when the window first filled stay
in the window for the rest of the run. -/
theorem window_frozen_once_full (latestWindowsize maxFileSize : Nat)
    (gatOf : String → Nat) (trigOf : String → String)
    (s : RState) (ds : List String)
    (h : s.latest.length = latestWindowsize) :
    (runInit latestWindowsize maxFileSize gatOf trigOf s ds).latest = s.latest
    ∧ (runInit latestWindowsize maxFileSize gatOf trigOf s ds).store.calls
        = s.store.calls ++ ds.map (fun d => (d, gatOf d)) := by
  induction ds generalizing s with
  | nil => simp [runInit]
  | cons d ds ih =>
    have hstep : initStep latestWindowsize maxFileSize gatOf trigOf s d =
        { latest := s.latest,
          latestTrig := String.join (s.latest.map (fun e => "\n" ++ e.triplesTrig)),
          store := (storeData maxFileSize s.store d (gatOf d)).1 } := by
      rw [initStep_eq]
      rw [if_pos (by omega)]
    have hrun : runInit latestWindowsize maxFileSize gatOf trigOf s (d :: ds) =
        runInit latestWindowsize maxFileSize gatOf trigOf
          (initStep latestWindowsize maxFileSize gatOf trigOf s d) ds := rfl
    rw [hrun, hstep]
    obtain ⟨h1, h2⟩ :=
      ih { latest := s.latest,
           latestTrig := String.join (s.latest.map (fun e => "\n" ++ e.triplesTrig)),
           store := (storeData maxFileSize s.store d (gatOf d)).1 } h
    refine ⟨h1, ?_⟩
    rw [h2, storeData_calls]
    simp

/-- Witness for C10 at a concrete input: a window of size 2 that is full
stays identical while `"x"` is ingested and immediately stored. -/
theorem window_frozen_once_full_witness :
    (runInit 2 10 String.length (fun s => s) frozenWitnessState ["x"]).latest
      = frozenWitnessState.latest
    ∧ (runInit 2 10 String.length (fun s => s)
        frozenWitnessState ["x"]).store.calls = [("x", 1)] := by
  have h := window_frozen_once_full 2 10 String.length (fun s => s)
    frozenWitnessState ["x"] (by decide)
  simpa [frozenWitnessState, initialStoreState] using h

/-- A nonempty string has a positive UTF-8 byte length. -/
theorem byteLength_pos (s : String) (h : s ≠ "") : 0 < byteLength s := by
  refine Nat.pos_of_ne_zero fun h0 => h ?_
  cases s with
  | mk data =>
    rw [byteLength, String.utf8ByteSize_mk, String.utf8Len_eq_zero] at h0
    rw [h0]

/-- Unfolding of `storeData` when the rotation branch runs. -/
theorem storeData_eq_rotate (maxFileSize : Nat) (s : StoreState)
    (p : String) (g : Nat)
    (h : s.byteCounter = 0 ∨ s.byteCounter > maxFileSize) :
    storeData maxFileSize s p g =
      ({ byteCounter := byteLength p, lastFragment := some g,
         files := s.files ++ [(some g, p)],
         calls := s.calls ++ [(p, g)] }, true) := by
  simp [storeData, h]

/-- Unfolding of `storeData` when the rotation branch does not run. -/
theorem storeData_eq_append (maxFileSize : Nat) (s : StoreState)
    (p : String) (g : Nat)
    (h : ¬(s.byteCounter = 0 ∨ s.byteCounter > maxFileSize)) :
    storeData maxFileSize s p g =
      ({ s with
          files := s.files ++ [(s.lastFragment, p)],
          byteCounter := s.byteCounter + byteLength p,
          calls := s.calls ++ [(p, g)] }, false) := by
  have hd : decide (s.byteCounter = 0 ∨ s.byteCounter > maxFileSize) = false :=
    decide_eq_false h
  simp [storeData, if_neg h, hd]

/-- C3, counterexample to the claim as stated: starting from the initial
store state, storing the EMPTY payload at time 5 leaves the byte counter
at 0 while fragment 5 is open; the next call (payload `"x"`, time 7)
then runs the rotation branch and starts a new fragment even though a
fragment is currently open and its accumulated byte count 0 does not
exceed the cap 10. The rotation condition of line 171 tests
`byteCounter === 0`, which is not the same as "no fragment is open". -/
theorem storeData_rotation_cex :
    ((storeData 10 ((storeData 10 initialStoreState "" 5).1) "x" 7).2 = true)
    ∧ ¬(((storeData 10 initialStoreState "" 5).1).lastFragment = none
        ∨ ((storeData 10 initialStoreState "" 5).1).byteCounter > 10) := by
  decide

/-- C3 as amended: provided the byte counter is zero exactly when no
fragment is open — which holds in every state reachable by storing only
nonempty payloads, and fails only after an empty payload is stored — a
call to `storeData(payload, timestamp)` starts a new fragment (named by
that timestamp, with the byte counter reset to 0 before counting the
new payload) if and only if no fragment is currently open or the open
fragment's accumulated byte count exceeds the configured maximum
fragment size; otherwise it appends the payload to the same open
fragment and adds the payload's byte length to the counter. Storing a
nonempty payload preserves the proviso. -/
theorem storeData_rotation_amended (maxFileSize : Nat) (s : StoreState)
    (p : String) (g : Nat)
    (hinv : s.byteCounter = 0 ↔ s.lastFragment = none) :
    ((storeData maxFileSize s p g).2 = true ↔
      (s.lastFragment = none ∨ s.byteCounter > maxFileSize))
    ∧ ((storeData maxFileSize s p g).2 = true →
        (storeData maxFileSize s p g).1.lastFragment = some g
        ∧ (storeData maxFileSize s p g).1.byteCounter = byteLength p
        ∧ (storeData maxFileSize s p g).1.files = s.files ++ [(some g, p)])
    ∧ ((storeData maxFileSize s p g).2 = false →
        (storeData maxFileSize s p g).1.lastFragment = s.lastFragment
        ∧ (storeData maxFileSize s p g).1.byteCounter
            = s.byteCounter + byteLength p
        ∧ (storeData maxFileSize s p g).1.files
            = s.files ++ [(s.lastFragment, p)])
    ∧ (p ≠ "" →
        ((storeData maxFileSize s p g).1.byteCounter = 0 ↔
          (storeData maxFileSize s p g).1.lastFragment = none)) := by
  by_cases hc : s.byteCounter = 0 ∨ s.byteCounter > maxFileSize
  · rw [storeData_eq_rotate maxFileSize s p g hc]
    refine ⟨?_, fun _ => ⟨rfl, rfl, rfl⟩, fun hf => absurd hf (by simp), fun hp => ?_⟩
    · simp only [true_iff]
      rcases hc with h0 | hgt
      · exact Or.inl (hinv.mp h0)
      · exact Or.inr hgt
    · simp only [iff_false, reduceCtorEq]
      exact Nat.pos_iff_ne_zero.mp (byteLength_pos p hp)
  · rw [storeData_eq_append maxFileSize s p g hc]
    push_neg at hc
    obtain ⟨h0, hle⟩ := hc
    have hfrag : s.lastFragment ≠ none := fun hn => h0 (hinv.mpr hn)
    refine ⟨⟨fun ht => absurd ht (by simp), fun hr => ?_⟩,
      fun ht => absurd ht (by simp), fun _ => ⟨rfl, rfl, rfl⟩, fun hp => ?_⟩
    · rcases hr with hn | hgt
      · exact absurd (hinv.mpr hn) h0
      · exact absurd hgt (Nat.not_lt.mpr hle)
    · have hbp := byteLength_pos p hp
      have hne : s.byteCounter + byteLength p ≠ 0 := by omega
      exact ⟨fun hz => absurd hz hne, fun hn => absurd hn hfrag⟩

/-- Witness for the amended C3 at a concrete input: from the initial
state (no fragment open, counter 0), storing `"ab"` at time 3 with cap
10 starts fragment 3 and leaves the counter at 2. -/
theorem storeData_rotation_amended_witness :
    ((storeData 10 initialStoreState "ab" 3).2 = true ↔
      (initialStoreState.lastFragment = none
        ∨ initialStoreState.byteCounter > 10))
    ∧ ((storeData 10 initialStoreState "ab" 3).2 = true →
        (storeData 10 initialStoreState "ab" 3).1.lastFragment = some 3
        ∧ (storeData 10 initialStoreState "ab" 3).1.byteCounter
            = byteLength "ab"
        ∧ (storeData 10 initialStoreState "ab" 3).1.files
            = initialStoreState.files ++ [(some 3, "ab")]) := by
  have h := storeData_rotation_amended 10 initialStoreState "ab" 3 (by decide)
  exact ⟨h.1, h.2.1⟩

/-- The search result stays inside the inclusive range `[lo, hi]`. -/
theorem bsearchAux_bounds (bs : List Nat) (t : Nat) (lo hi : Nat)
    (h : lo ≤ hi) : lo ≤ bsearchAux bs t lo hi ∧ bsearchAux bs t lo hi ≤ hi := by
  induction lo, hi using bsearchAux.induct bs t with
  | case1 lo hi h1 hle ih =>
    rw [bsearchAux, dif_pos h1, if_pos hle]
    have h2 := ih (by omega)
    constructor <;> omega
  | case2 lo hi h1 hgt ih =>
    rw [bsearchAux, dif_pos h1, if_neg hgt]
    have h2 := ih (by omega)
    constructor <;> omega
  | case3 lo hi h1 =>
    rw [bsearchAux, dif_neg h1]
    omega

/-- Search invariant on a monotone sequence: the returned index holds a
timestamp `≤ t` (or is the left end of the range), and every index to
its right within the range holds a timestamp `> t`. -/
theorem bsearchAux_spec (bs : List Nat) (t : Nat)
    (hmono : ∀ i j, i ≤ j → j < bs.length → bs.getD i 0 ≤ bs.getD j 0)
    (lo hi : Nat) (hle : lo ≤ hi) (hhi : hi < bs.length) :
    (bs.getD (bsearchAux bs t lo hi) 0 ≤ t ∨ bsearchAux bs t lo hi = lo)
    ∧ ∀ j, bsearchAux bs t lo hi < j → j ≤ hi → t < bs.getD j 0 := by
  induction lo, hi using bsearchAux.induct bs t with
  | case1 lo hi h1 hmid ih =>
    rw [bsearchAux, dif_pos h1, if_pos hmid]
    obtain ⟨hb1, hb2⟩ := bsearchAux_bounds bs t ((lo + hi + 1) / 2) hi (by omega)
    obtain ⟨hs1, hs2⟩ := ih (by omega) hhi
    refine ⟨?_, hs2⟩
    rcases hs1 with hs1 | hs1
    · exact Or.inl hs1
    · refine Or.inl ?_
      rw [hs1]
      exact hmid
  | case2 lo hi h1 hmid ih =>
    rw [bsearchAux, dif_pos h1, if_neg hmid]
    obtain ⟨hb1, hb2⟩ := bsearchAux_bounds bs t lo ((lo + hi + 1) / 2 - 1) (by omega)
    obtain ⟨hs1, hs2⟩ := ih (by omega) (by omega)
    refine ⟨hs1, ?_⟩
    intro j hj1 hj2
    by_cases hj3 : j ≤ (lo + hi + 1) / 2 - 1
    · exact hs2 j hj1 hj3
    · have hmj : bs.getD ((lo + hi + 1) / 2) 0 ≤ bs.getD j 0 :=
        hmono _ j (by omega) (by omega)
      omega
  | case3 lo hi h1 =>
    rw [bsearchAux, dif_neg h1]
    exact ⟨Or.inr rfl, fun j hj1 hj2 => absurd (Nat.lt_of_lt_of_le hj1 hj2) h1⟩

/-- In a strictly ascending list, positionally earlier entries are
strictly smaller. -/
theorem sorted_getD_lt (bs : List Nat) (hs : bs.Sorted (· < ·))
    (i j : Nat) (hij : i < j) (hj : j < bs.length) :
    bs.getD i 0 < bs.getD j 0 := by
  have hi : i < bs.length := Nat.lt_trans hij hj
  rw [List.getD_eq_getElem bs 0 hi, List.getD_eq_getElem bs 0 hj]
  exact hs.rel_get_of_lt (a := ⟨i, hi⟩) (b := ⟨j, hj⟩) hij

/-- In a strictly ascending list, positionally earlier entries are at
most as large. -/
theorem sorted_getD_le (bs : List Nat) (hs : bs.Sorted (· < ·))
    (i j : Nat) (hij : i ≤ j) (hj : j < bs.length) :
    bs.getD i 0 ≤ bs.getD j 0 := by
  rcases Nat.lt_or_ge i j with h | h
  · exact Nat.le_of_lt (sorted_getD_lt bs hs i j h hj)
  · have : i = j := by omega
    rw [this]

/-- C4: for any query time `t` and any strictly ascending nonempty list
of fragment boundary times, `dateBinarySearch` returns a pair of a
boundary value and its zero-based index such that the value is the
entry at that index, the index is in range, the result is the earliest
boundary (index 0) whenever `t` precedes every boundary, and otherwise
the result is the largest boundary `≤ t`: its value is `≤ t` and every
index holding a value `≤ t` is at most the returned index. -/
theorem dateBinarySearch_locates (t : Nat) (bs : List Nat)
    (hs : bs.Sorted (· < ·)) (hne : bs ≠ []) :
    (dateBinarySearch t bs).2 < bs.length
    ∧ (dateBinarySearch t bs).1 = bs.getD (dateBinarySearch t bs).2 0
    ∧ (t < bs.getD 0 0 → dateBinarySearch t bs = (bs.getD 0 0, 0))
    ∧ (bs.getD 0 0 ≤ t →
        (dateBinarySearch t bs).1 ≤ t
        ∧ ∀ j, j < bs.length → bs.getD j 0 ≤ t → j ≤ (dateBinarySearch t bs).2) := by
  have hn : 0 < bs.length := List.length_pos.mpr hne
  obtain ⟨hb1, hb2⟩ := bsearchAux_bounds bs t 0 (bs.length - 1) (Nat.zero_le _)
  obtain ⟨hs1, hs2⟩ := bsearchAux_spec bs t (sorted_getD_le bs hs) 0
    (bs.length - 1) (Nat.zero_le _) (by omega)
  refine ⟨by simp only [dateBinarySearch]; omega, rfl, ?_, ?_⟩
  · intro hlt
    have hr0 : bsearchAux bs t 0 (bs.length - 1) = 0 := by
      rcases hs1 with h | h
      · exfalso
        have := sorted_getD_le bs hs 0 (bsearchAux bs t 0 (bs.length - 1))
          (Nat.zero_le _) (by omega)
        omega
      · exact h
    simp only [dateBinarySearch, hr0]
  · intro hge
    constructor
    · rcases hs1 with h | h
      · exact h
      · simp only [dateBinarySearch, h]
        exact hge
    · intro j hj hjle
      by_contra hc
      push_neg at hc
      have := hs2 j hc (by omega)
      omega

/-- Witness for C4: boundaries `[10, 20, 30]` and query time 25 locate
boundary 20 at index 1, which is the largest boundary `≤ 25`. -/
theorem dateBinarySearch_locates_witness :
    (dateBinarySearch 25 [10, 20, 30]).2 < 3
    ∧ (dateBinarySearch 25 [10, 20, 30]).1
        = [10, 20, 30].getD (dateBinarySearch 25 [10, 20, 30]).2 0
    ∧ ((10 : Nat) ≤ 25 →
        (dateBinarySearch 25 [10, 20, 30]).1 ≤ 25
        ∧ ∀ j, j < 3 → [10, 20, 30].getD j 0 ≤ 25
            → j ≤ (dateBinarySearch 25 [10, 20, 30]).2) := by
  have h := dateBinarySearch_locates 25 [10, 20, 30] (by decide) (by decide)
  exact ⟨h.1, h.2.1, h.2.2.2⟩

/-- Requerying with the located boundary time returns the same located
boundary and index: localization is idempotent on a strictly ascending
nonempty boundary list. -/
theorem dateBinarySearch_idem (t : Nat) (bs : List Nat)
    (hs : bs.Sorted (· < ·)) (hne : bs ≠ []) :
    dateBinarySearch ((dateBinarySearch t bs).1) bs = dateBinarySearch t bs := by
  have hn : 0 < bs.length := List.length_pos.mpr hne
  obtain ⟨hb1, hb2⟩ := bsearchAux_bounds bs t 0 (bs.length - 1) (Nat.zero_le _)
  obtain ⟨hb1', hb2'⟩ := bsearchAux_bounds bs (bs.getD (bsearchAux bs t 0 (bs.length - 1)) 0)
    0 (bs.length - 1) (Nat.zero_le _)
  obtain ⟨hs1', hs2'⟩ := bsearchAux_spec bs
    (bs.getD (bsearchAux bs t 0 (bs.length - 1)) 0) (sorted_getD_le bs hs) 0
    (bs.length - 1) (Nat.zero_le _) (by omega)
  have heq : bsearchAux bs (bs.getD (bsearchAux bs t 0 (bs.length - 1)) 0) 0
      (bs.length - 1) = bsearchAux bs t 0 (bs.length - 1) := by
    by_contra hc
    rcases Nat.lt_or_ge (bsearchAux bs (bs.getD (bsearchAux bs t 0 (bs.length - 1)) 0) 0
        (bs.length - 1)) (bsearchAux bs t 0 (bs.length - 1)) with hlt | hge
    · have := hs2' (bsearchAux bs t 0 (bs.length - 1)) hlt (by omega)
      omega
    · have hlt : bsearchAux bs t 0 (bs.length - 1) <
          bsearchAux bs (bs.getD (bsearchAux bs t 0 (bs.length - 1)) 0) 0
            (bs.length - 1) := by omega
      have hstrict := sorted_getD_lt bs hs _ _ hlt (by omega)
      rcases hs1' with h | h
      · omega
      · omega
  simp only [dateBinarySearch, heq]

/-- C5: on a strictly ascending nonempty fragment list, a valid query
time redirects (302) to the located fragment's exact timestamp whenever
it differs from it, is answered directly when it equals it, and the
redirect target itself is always answered directly — canonicalization
never triggers a second redirect. -/
theorem fragments_canonicalization (fragments : List Nat) (t now : Nat)
    (hs : fragments.Sorted (· < ·)) (hne : fragments ≠ []) :
    (t ≠ (dateBinarySearch t fragments).1 →
      fragmentsHandler (some t) now fragments
        = .redirect (dateBinarySearch t fragments).1)
    ∧ (t = (dateBinarySearch t fragments).1 →
      fragmentsHandler (some t) now fragments
        = .ok (dateBinarySearch t fragments).1 (dateBinarySearch t fragments).2
            (decide ((dateBinarySearch t fragments).2 < fragments.length - 1)))
    ∧ fragmentsHandler (some ((dateBinarySearch t fragments).1)) now fragments
        = .ok (dateBinarySearch t fragments).1 (dateBinarySearch t fragments).2
            (decide ((dateBinarySearch t fragments).2 < fragments.length - 1)) := by
  refine ⟨fun hneq => ?_, fun heq => ?_, ?_⟩
  · simp [fragmentsHandler, hneq]
  · simp only [fragmentsHandler]
    rw [if_neg (not_not_intro heq)]
  · have hidem := dateBinarySearch_idem t fragments hs hne
    simp [fragmentsHandler, hidem]

/-- Witness for C5: fragments `[10, 20]`, query time 15 → one redirect
to time 10; querying the returned boundary 10 answers directly. -/
theorem fragments_canonicalization_witness :
    fragmentsHandler (some 15) 0 [10, 20] = .redirect 10
    ∧ fragmentsHandler (some 10) 0 [10, 20] = .ok 10 0 true := by
  have he : dateBinarySearch 15 [10, 20] = (10, 0) := by
    simp [dateBinarySearch, bsearchAux]
  have h := fragments_canonicalization [10, 20] 15 0 (by decide) (by decide)
  obtain ⟨h1, _, h3⟩ := h
  rw [he] at h1 h3
  exact ⟨h1 (by decide), h3⟩

/-- C7: every non-redirect historical response carries the
non-cacheable policy exactly when the located fragment's index is the
last (most recent) one in the fragment list, and the permanently
cacheable (immutable) policy otherwise. -/
theorem fragments_cache_policy (fragments : List Nat) (t now f i : Nat)
    (c : Bool) (hne : fragments ≠ [])
    (h : fragmentsHandler (some t) now fragments = .ok f i c) :
    c = false ↔ i = fragments.length - 1 := by
  have hn : 0 < fragments.length := List.length_pos.mpr hne
  obtain ⟨hb1, hb2⟩ := bsearchAux_bounds fragments t 0 (fragments.length - 1)
    (Nat.zero_le _)
  by_cases hcond : t ≠ (dateBinarySearch t fragments).1
  · simp [fragmentsHandler, hcond] at h
  · simp only [fragmentsHandler, if_neg hcond, FragResponse.ok.injEq] at h
    obtain ⟨hf, hi, hc⟩ := h
    subst hi
    subst hc
    have hile : (dateBinarySearch t fragments).2 ≤ fragments.length - 1 := hb2
    constructor
    · intro hfalse
      have := of_decide_eq_false hfalse
      omega
    · intro hlast
      apply decide_eq_false
      omega

/-- Witness for C7: a single fragment `[10]` queried at its exact time
10 answers directly at the last index 0 with the non-cacheable
policy. -/
theorem fragments_cache_policy_witness :
    false = false ↔ (0 : Nat) = [10].length - 1 := by
  refine fragments_cache_policy [10] 10 0 10 0 false (by decide) ?_
  simp [fragmentsHandler, dateBinarySearch, bsearchAux]

/-- C9: a historical read whose time parameter is missing or malformed
(an Invalid Date) is answered with a redirect to the current time, and
no fragment lookup occurs: the answer does not depend on the fragment
list at all (and the handler touches no interface state). -/
theorem fragments_invalid_time (now : Nat)
    (fragments fragments' : List Nat) :
    fragmentsHandler none now fragments = .redirect now
    ∧ fragmentsHandler none now fragments
        = fragmentsHandler none now fragments' :=
  ⟨rfl, rfl⟩

/-- C8: the metadata for a fragment at `index` contains a
`hydra:previous` quad exactly when `index > 0`, and that quad (there is
exactly one) targets the fragment at `index - 1` of the sorted fragment
list, with its `.trig` extension stripped; at index 0 no previous link
is emitted. -/
theorem createMetadata_previous_link (cfg : Config) (fragments : List String)
    (subject : String) (index : Nat) :
    (createMetadata cfg fragments subject index).filter
        (fun q => decide (q.p = hydraPrevious)) =
      if 0 < index then
        [{ s := subject, p := hydraPrevious,
           o := cfg.serverUrl ++ cfg.name ++ "/fragments?time="
                ++ stripTrig (fragments.getD (index - 1) ""),
           g := "#Metadata" }]
      else [] := by
  by_cases hl : cfg.license ≠ "" <;> by_cases hi : 0 < index <;>
    simp [createMetadata, hl, hi, hydraPrevious, List.filter]

/-- C6: evaluation of the `/latest` handler at a failing input. With one
windowed entry and no intervening ingestion, the first request (no
`If-None-Match`) answers 200 and caches the validator; the second
identical request computes the same validator, hits the
`etag === this._prevEtag` branch, and executes `return prevResponse`
(line 105) — an undeclared variable, raising a ReferenceError — instead
of returning the cached body `this._prevResponseBody` with the same
ETag, as the claim requires. -/
theorem readLatest_second_call_defect :
    ((readLatest (fun s => "h" ++ s) (fun _ => "M") liveCfg liveState none).1
      = LatestResponse.ok "W/\"hd\"" 5 "S\n\ndT\nM")
    ∧ ((readLatest (fun s => "h" ++ s) (fun _ => "M") liveCfg
        (readLatest (fun s => "h" ++ s) (fun _ => "M") liveCfg
          liveState none).2 none).1 = LatestResponse.refError)
    ∧ LatestResponse.refError ≠ LatestResponse.ok "W/\"hd\"" 5 "S\n\ndT\nM" := by
  refine ⟨by decide, by decide, by decide⟩

end TimeseriesServer
